import Mathlib

/-!
Verification of the rbfx editor undo/redo subsystem (Toolbox Undo header and
ComponentInspector sources). The development embeds, in order:

1. the command-history stack (groups of reversible commands plus a cursor),
   with an event trace observing Apply-Inverse / Apply-Forward / OnModified
   invocations;
2. the continuous-edit value tracker (UndoValueScope and UndoStack::Track);
3. the scoped tracking guard (UndoTrackGuard);
4. the concrete command variants (UndoCreateNode, UndoDeleteNode,
   UndoReparentNode, UndoCreateComponent, UndoDeleteComponent,
   UndoEditAttribute, UndoEditUIStyle) over a scene-tree / UI-tree document
   model;
5. the UI element path capture and resolution helpers (GetUIElementPath,
   GetUIElementByPath).

The bodies of UndoStack::Undo, UndoStack::Redo, UndoStack::Record and
UndoStack::Clear are not part of the available sources (only the class
declaration is); those operations are modelled from the specification text,
as marked in their doc comments. Everything else is translated directly from
the source header.
-/

namespace Rbfx

/-- Observable events emitted while the history replays a command group:
one event per Apply-Inverse call, per Apply-Forward call and per OnModified
hook invocation, each tagged with the command identity. -/
inductive Ev where
  | undoEv (cid : Nat)
  | redoEv (cid : Nat)
  | modEv (cid : Nat)
deriving DecidableEq, Repr

/-- A polymorphic command (UndoAction in the source header): Apply-Inverse
and Apply-Forward, each returning success of the replay together with the
updated document. The base OnModified hook has no document effect, so it is
observed purely through the event trace. The field cid models object
identity of the action. -/
structure Cmd (σ : Type) where
  cid : Nat
  applyUndo : σ → Bool × σ
  applyRedo : σ → Bool × σ

/-- State of the history (UndoStack): the group stack, the cursor, the
tracking flag and the actions collected during the current frame. -/
structure StackSt (σ : Type) where
  stack : List (List (Cmd σ))
  index : Nat
  trackingEnabled : Bool
  pending : List (Cmd σ)

/-- Result of one Undo or Redo call: the success flag, the new history
state, the new document and the emitted event trace. -/
structure StepResult (σ : Type) where
  ok : Bool
  st : StackSt σ
  doc : σ
  events : List Ev

/-- Runs Apply-Inverse over a list of commands front to back (callers pass
the group already reversed), threading the document, and returns the final
document, the trace of Apply-Inverse events in invocation order, and the
identities of the commands whose Apply-Inverse returned true. -/
def runUndoPass {σ : Type} : List (Cmd σ) → σ → σ × List Ev × List Nat
  | [], d => (d, [], [])
  | c :: rest, d =>
    let r := c.applyUndo d
    let t := runUndoPass rest r.2
    (t.1, Ev.undoEv c.cid :: t.2.1, if r.1 then c.cid :: t.2.2 else t.2.2)

/-- Runs Apply-Forward over a list of commands front to back, threading the
document, and returns the final document, the Apply-Forward event trace and
the identities of the commands that returned true. -/
def runRedoPass {σ : Type} : List (Cmd σ) → σ → σ × List Ev × List Nat
  | [], d => (d, [], [])
  | c :: rest, d =>
    let r := c.applyRedo d
    let t := runRedoPass rest r.2
    (t.1, Ev.redoEv c.cid :: t.2.1, if r.1 then c.cid :: t.2.2 else t.2.2)

/-- Modelled from the spec: the body of UndoStack::Undo is not in the
available sources (the header only declares it). Per the spec: if the cursor
is 0 the call returns false and does nothing; otherwise the cursor is
decremented and Apply-Inverse runs on every command of the group at the new
cursor in reverse insertion order, per-command failures are tolerated, the
call returns true, and the OnModified hook fires in forward insertion order
for the commands whose replay succeeded (the header documents OnModified as
called when Undo or Redo return true). -/
def UndoStack.Undo {σ : Type} (s : StackSt σ) (d : σ) : StepResult σ :=
  if s.index = 0 then ⟨false, s, d, []⟩
  else
    let g := s.stack.getD (s.index - 1) []
    let r := runUndoPass g.reverse d
    let mods := (g.filter (fun c => r.2.2.contains c.cid)).map (fun c => Ev.modEv c.cid)
    ⟨true, { s with index := s.index - 1 }, r.1, r.2.1 ++ mods⟩

/-- Modelled from the spec: the body of UndoStack::Redo is not in the
available sources. Per the spec: if the cursor equals the history length the
call returns false and does nothing; otherwise Apply-Forward runs on every
command of the group at the cursor in forward insertion order, the cursor is
incremented, the call returns true, and OnModified fires in forward order
for the commands whose replay succeeded. -/
def UndoStack.Redo {σ : Type} (s : StackSt σ) (d : σ) : StepResult σ :=
  if s.stack.length ≤ s.index then ⟨false, s, d, []⟩
  else
    let g := s.stack.getD s.index []
    let r := runRedoPass g d
    let mods := (g.filter (fun c => r.2.2.contains c.cid)).map (fun c => Ev.modEv c.cid)
    ⟨true, { s with index := s.index + 1 }, r.1, r.2.1 ++ mods⟩

/-- Modelled from the spec: the group-sealing step of UndoStack is not in
the available sources. Record appends the new group after truncating every
group at or beyond the cursor, and advances the cursor; it is a no-op when
the tracking flag is false. -/
def UndoStack.Record {σ : Type} (s : StackSt σ) (g : List (Cmd σ)) : StackSt σ :=
  if s.trackingEnabled then
    { s with stack := s.stack.take s.index ++ [g], index := s.index + 1 }
  else s

/-- Modelled from the spec: the body of UndoStack::Clear is not in the
available sources. Clear resets the cursor to 0 and discards all groups. -/
def UndoStack.Clear {σ : Type} (s : StackSt σ) : StackSt σ :=
  { s with stack := [], index := 0, pending := [] }

/-- Source: UndoStack::SetTrackingEnabled is a plain flag write. -/
def UndoStack.SetTrackingEnabled {σ : Type} (s : StackSt σ) (b : Bool) : StackSt σ :=
  { s with trackingEnabled := b }

/-- Source: UndoStack::Add pushes the action onto the current-frame action
list unconditionally and returns the action as a usable handle. -/
def UndoStack.Add {σ : Type} (s : StackSt σ) (a : Cmd σ) : Cmd σ × StackSt σ :=
  (a, { s with pending := s.pending ++ [a] })

/-- Iterated Undo calls, threading history state and document. -/
def iterUndo {σ : Type} : Nat → StackSt σ × σ → StackSt σ × σ
  | 0, p => p
  | n + 1, (s, d) =>
    let r := UndoStack.Undo s d
    iterUndo n (r.st, r.doc)

/-- Iterated Redo calls, threading history state and document. -/
def iterRedo {σ : Type} : Nat → StackSt σ × σ → StackSt σ × σ
  | 0, p => p
  | n + 1, (s, d) =>
    let r := UndoStack.Redo s d
    iterRedo n (r.st, r.doc)

/-- Recognizes Apply-Inverse events. -/
def Ev.isUndoApply : Ev → Bool
  | .undoEv _ => true
  | _ => false

/-- Recognizes Apply-Forward events. -/
def Ev.isRedoApply : Ev → Bool
  | .redoEv _ => true
  | _ => false

lemma filter_isUndoApply_map_modEv {σ : Type} (l : List (Cmd σ)) :
    (l.map (fun c => Ev.modEv c.cid)).filter Ev.isUndoApply = [] := by
  induction l with
  | nil => rfl
  | cons c cs ih => simp [Ev.isUndoApply, ih]

lemma filter_isRedoApply_map_modEv {σ : Type} (l : List (Cmd σ)) :
    (l.map (fun c => Ev.modEv c.cid)).filter Ev.isRedoApply = [] := by
  induction l with
  | nil => rfl
  | cons c cs ih => simp [Ev.isRedoApply, ih]

lemma runUndoPass_mem_oks {σ : Type} (l : List (Cmd σ)) (d : σ) (c : Cmd σ)
    (hc : c ∈ l) (hok : ∀ x, (c.applyUndo x).1 = true) :
    c.cid ∈ (runUndoPass l d).2.2 := by
  induction l generalizing d with
  | nil => cases hc
  | cons c₀ cs ih =>
    rcases List.mem_cons.mp hc with h | h
    · subst h
      simp [runUndoPass, hok]
    · simp only [runUndoPass]
      by_cases h1 : (c₀.applyUndo d).1 = true
      · simp [h1]
        right
        exact ih _ h
      · simp [h1]
        exact ih _ h

/-- Claim C2: the Undo operation of the history returns false and changes
nothing (no cursor move, no document change, no events) when the cursor is
0; otherwise it returns true, decrements the cursor, keeps the group stack,
and fires the OnModified hook for every command of the processed group whose
Apply-Inverse succeeds, even when other commands of the group fail. -/
theorem undo_contract {σ : Type} (s : StackSt σ) (d : σ) :
    (s.index = 0 → UndoStack.Undo s d = ⟨false, s, d, []⟩) ∧
    (0 < s.index →
      (UndoStack.Undo s d).ok = true ∧
      (UndoStack.Undo s d).st.index = s.index - 1 ∧
      (UndoStack.Undo s d).st.stack = s.stack ∧
      ∀ c ∈ s.stack.getD (s.index - 1) [],
        (∀ x, (c.applyUndo x).1 = true) →
        Ev.modEv c.cid ∈ (UndoStack.Undo s d).events) := by
  constructor
  · intro h
    simp [UndoStack.Undo, h]
  · intro h
    have hne : ¬ s.index = 0 := Nat.pos_iff_ne_zero.mp h
    refine ⟨by simp [UndoStack.Undo, hne], by simp [UndoStack.Undo, hne],
      by simp [UndoStack.Undo, hne], ?_⟩
    intro c hc hok
    simp only [UndoStack.Undo, hne, if_false]
    apply List.mem_append_right
    have hoks : c.cid ∈ (runUndoPass (s.stack.getD (s.index - 1) []).reverse d).2.2 :=
      runUndoPass_mem_oks _ d c (List.mem_reverse.mpr hc) hok
    refine List.mem_map.mpr ⟨c, ?_, rfl⟩
    refine List.mem_filter.mpr ⟨hc, ?_⟩
    simpa using hoks

/-- Claim C2 witness: a history with cursor 0 refuses to undo, and a
one-group history with an always-failing and an always-succeeding command
undoes with success, firing OnModified for the succeeding command. -/
theorem undo_contract_witness :
    (UndoStack.Undo (σ := Nat) ⟨[], 0, true, []⟩ 7 = ⟨false, ⟨[], 0, true, []⟩, 7, []⟩) ∧
    ((UndoStack.Undo (σ := Nat)
        ⟨[[⟨1, fun x => (false, x), fun x => (true, x)⟩,
           ⟨2, fun x => (true, x + 1), fun x => (true, x)⟩]], 1, true, []⟩ 7).ok = true ∧
      Ev.modEv 2 ∈ (UndoStack.Undo (σ := Nat)
        ⟨[[⟨1, fun x => (false, x), fun x => (true, x)⟩,
           ⟨2, fun x => (true, x + 1), fun x => (true, x)⟩]], 1, true, []⟩ 7).events) := by
  refine ⟨(undo_contract (σ := Nat) ⟨[], 0, true, []⟩ 7).1 rfl, ?_, ?_⟩
  · exact ((undo_contract (σ := Nat)
      ⟨[[⟨1, fun x => (false, x), fun x => (true, x)⟩,
         ⟨2, fun x => (true, x + 1), fun x => (true, x)⟩]], 1, true, []⟩ 7).2
      (by decide)).1
  · exact ((undo_contract (σ := Nat)
      ⟨[[⟨1, fun x => (false, x), fun x => (true, x)⟩,
         ⟨2, fun x => (true, x + 1), fun x => (true, x)⟩]], 1, true, []⟩ 7).2
      (by decide)).2.2.2
      ⟨2, fun x => (true, x + 1), fun x => (true, x)⟩ (by simp) (fun x => rfl)

/-- Claim C3: for a group holding commands A, B, C recorded in that order, a
single Undo call emits the Apply-Inverse events for C, then B, then A, and a
single Redo call emits the Apply-Forward events for A, then B, then C. -/
theorem group_replay_order {σ : Type} (A B C' : Cmd σ) (tr : Bool)
    (p : List (Cmd σ)) (d : σ) :
    ((UndoStack.Undo ⟨[[A, B, C']], 1, tr, p⟩ d).events.filter Ev.isUndoApply
      = [Ev.undoEv C'.cid, Ev.undoEv B.cid, Ev.undoEv A.cid]) ∧
    ((UndoStack.Redo ⟨[[A, B, C']], 0, tr, p⟩ d).events.filter Ev.isRedoApply
      = [Ev.redoEv A.cid, Ev.redoEv B.cid, Ev.redoEv C'.cid]) := by
  constructor
  · simp [UndoStack.Undo, runUndoPass, List.filter_append,
      filter_isUndoApply_map_modEv, Ev.isUndoApply]
  · simp [UndoStack.Redo, runRedoPass, List.filter_append,
      filter_isRedoApply_map_modEv, Ev.isRedoApply]

/-- Claim C6: the invariant cursor ≤ length(history) is preserved by Record,
Undo, Redo and Clear, Undo succeeds exactly when the cursor is positive and
Redo succeeds exactly when the cursor is below the history length. -/
theorem history_invariant {σ : Type} (s : StackSt σ) (g : List (Cmd σ)) (d : σ)
    (h : s.index ≤ s.stack.length) :
    (UndoStack.Record s g).index ≤ (UndoStack.Record s g).stack.length ∧
    (UndoStack.Undo s d).st.index ≤ (UndoStack.Undo s d).st.stack.length ∧
    (UndoStack.Redo s d).st.index ≤ (UndoStack.Redo s d).st.stack.length ∧
    (UndoStack.Clear (σ := σ) s).index ≤ (UndoStack.Clear (σ := σ) s).stack.length ∧
    ((UndoStack.Undo s d).ok = true ↔ 0 < s.index) ∧
    ((UndoStack.Redo s d).ok = true ↔ s.index < s.stack.length) := by
  refine ⟨?_, ?_, ?_, ?_, ?_, ?_⟩
  · by_cases htr : s.trackingEnabled
    · simp [UndoStack.Record, htr, List.length_take, Nat.min_eq_left h]
    · simp [UndoStack.Record, htr, h]
  · by_cases hz : s.index = 0
    · simp [UndoStack.Undo, hz, h]
    · simp [UndoStack.Undo, hz]
      omega
  · by_cases hl : s.stack.length ≤ s.index
    · simp [UndoStack.Redo, hl, h]
    · simp [UndoStack.Redo, hl]
      omega
  · simp [UndoStack.Clear]
  · by_cases hz : s.index = 0
    · simp [UndoStack.Undo, hz]
    · simp [UndoStack.Undo, hz]
      omega
  · by_cases hl : s.stack.length ≤ s.index
    · simp [UndoStack.Redo, hl]
      try omega
    · simp [UndoStack.Redo, hl]
      try omega

/-- Claim C6 witness: the invariant facts evaluated on a concrete one-group
history with cursor 1. -/
theorem history_invariant_witness :
    ((UndoStack.Undo (σ := Nat)
      ⟨[[⟨1, fun x => (true, x), fun x => (true, x)⟩]], 1, true, []⟩ 3).ok = true ↔
      (0 : Nat) < 1) ∧
    ((UndoStack.Redo (σ := Nat)
      ⟨[[⟨1, fun x => (true, x), fun x => (true, x)⟩]], 1, true, []⟩ 3).ok = true ↔
      (1 : Nat) < 1) := by
  have h := history_invariant (σ := Nat)
    ⟨[[⟨1, fun x => (true, x), fun x => (true, x)⟩]], 1, true, []⟩
    [] 3 (by simp)
  exact ⟨h.2.2.2.2.1, by simpa using h.2.2.2.2.2⟩

/-- Claim C5: recording a new group while the cursor is below the history
length keeps only the groups strictly before the cursor (plus the new
group), the cursor lands at the new history length, and every subsequent
Redo call returns false and changes nothing. -/
theorem record_discards_future {σ : Type} (s : StackSt σ) (g : List (Cmd σ))
    (d : σ) (htr : s.trackingEnabled = true) (h : s.index ≤ s.stack.length) :
    ((UndoStack.Record s g).stack = s.stack.take s.index ++ [g]) ∧
    ((UndoStack.Record s g).index = (UndoStack.Record s g).stack.length) ∧
    (UndoStack.Redo (UndoStack.Record s g) d
      = ⟨false, UndoStack.Record s g, d, []⟩) ∧
    (∀ n, iterRedo n (UndoStack.Record s g, d) = (UndoStack.Record s g, d)) := by
  have hstack : (UndoStack.Record s g).stack = s.stack.take s.index ++ [g] := by
    simp [UndoStack.Record, htr]
  have hidx : (UndoStack.Record s g).index = (UndoStack.Record s g).stack.length := by
    simp [UndoStack.Record, htr, List.length_take, Nat.min_eq_left h]
  have hredo : UndoStack.Redo (UndoStack.Record s g) d
      = ⟨false, UndoStack.Record s g, d, []⟩ := by
    simp [UndoStack.Redo, hidx]
  refine ⟨hstack, hidx, hredo, ?_⟩
  intro n
  induction n with
  | zero => rfl
  | succ m ih => simp [iterRedo, hredo, ih]

/-- Claim C5 witness: recording over a two-group history with cursor 1 drops
the redoable group, and Redo on the result is refused. -/
theorem record_discards_future_witness :
    ((UndoStack.Record (σ := Nat)
        ⟨[[⟨1, fun x => (true, x), fun x => (true, x)⟩],
          [⟨2, fun x => (true, x), fun x => (true, x)⟩]], 1, true, []⟩
        [⟨3, fun x => (true, x), fun x => (true, x)⟩]).stack
      = [[⟨1, fun x => (true, x), fun x => (true, x)⟩],
         [⟨3, fun x => (true, x), fun x => (true, x)⟩]]) ∧
    ((UndoStack.Redo (UndoStack.Record (σ := Nat)
        ⟨[[⟨1, fun x => (true, x), fun x => (true, x)⟩],
          [⟨2, fun x => (true, x), fun x => (true, x)⟩]], 1, true, []⟩
        [⟨3, fun x => (true, x), fun x => (true, x)⟩]) 9).ok = false) := by
  have h := record_discards_future (σ := Nat)
    ⟨[[⟨1, fun x => (true, x), fun x => (true, x)⟩],
      [⟨2, fun x => (true, x), fun x => (true, x)⟩]], 1, true, []⟩
    [⟨3, fun x => (true, x), fun x => (true, x)⟩] 9 rfl (by simp)
  refine ⟨?_, ?_⟩
  · rw [h.1]
    rfl
  · rw [h.2.2.1]

/-- The round-trip hypothesis for Claim C4: the document states reached
after each externally applied edit step are linked so that replaying the
inverse of each recorded group (in reverse insertion order, as Undo does)
from the post-state of that step yields its pre-state. -/
def UndoChain {σ : Type} (d0 : σ) : List (List (Cmd σ)) → σ → Prop
  | [], dN => dN = d0
  | g :: gs, dN => ∃ d1, (runUndoPass g.reverse d1).1 = d0 ∧ UndoChain d1 gs dN

lemma undoChain_append_singleton {σ : Type} (gs : List (List (Cmd σ)))
    (g : List (Cmd σ)) (d0 dN : σ) (h : UndoChain d0 (gs ++ [g]) dN) :
    UndoChain d0 gs ((runUndoPass g.reverse dN).1) := by
  induction gs generalizing d0 with
  | nil =>
    rcases h with ⟨d1, hrun, hrest⟩
    simp only [UndoChain] at hrest
    subst hrest
    simpa [UndoChain] using hrun
  | cons g' gs' ih =>
    rcases h with ⟨d1, hrun, hrest⟩
    exact ⟨d1, hrun, ih d1 hrest⟩

lemma undo_pos_st_doc {σ : Type} (s : StackSt σ) (d : σ) (hne : ¬ s.index = 0) :
    (UndoStack.Undo s d).st = { s with index := s.index - 1 } ∧
    (UndoStack.Undo s d).doc
      = (runUndoPass (s.stack.getD (s.index - 1) []).reverse d).1 := by
  constructor <;> simp [UndoStack.Undo, hne]

lemma iterUndo_chain {σ : Type} (gs : List (List (Cmd σ))) :
    ∀ (pre post : List (List (Cmd σ))) (d0 dN : σ) (tr : Bool) (p : List (Cmd σ)),
    UndoChain d0 gs dN →
    iterUndo gs.length
        (⟨(pre ++ gs) ++ post, (pre ++ gs).length, tr, p⟩, dN)
      = (⟨(pre ++ gs) ++ post, pre.length, tr, p⟩, d0) := by
  induction gs using List.reverseRecOn with
  | nil =>
    intro pre post d0 dN tr p h
    simp only [UndoChain] at h
    subst h
    simp [iterUndo]
  | append_singleton gs' g ih =>
    intro pre post d0 dN tr p h
    have hmid := undoChain_append_singleton gs' g d0 dN h
    have hassoc : (pre ++ (gs' ++ [g])) ++ post = (pre ++ gs') ++ ([g] ++ post) := by
      simp [List.append_assoc]
    have hne : ¬ (pre ++ (gs' ++ [g])).length = 0 := by simp
    have hidx : (pre ++ (gs' ++ [g])).length - 1 = (pre ++ gs').length := by simp
    have hgetD : (((pre ++ (gs' ++ [g])) ++ post).getD
        ((pre ++ (gs' ++ [g])).length - 1) []) = g := by
      rw [hassoc, hidx, List.getD_eq_getElem?_getD,
        List.getElem?_append_right (Nat.le_refl _)]
      simp
    have hsd := undo_pos_st_doc
      (⟨(pre ++ (gs' ++ [g])) ++ post, (pre ++ (gs' ++ [g])).length, tr, p⟩ :
        StackSt σ) dN hne
    have hst : (UndoStack.Undo
        (⟨(pre ++ (gs' ++ [g])) ++ post, (pre ++ (gs' ++ [g])).length, tr, p⟩ :
          StackSt σ) dN).st
        = ⟨(pre ++ (gs' ++ [g])) ++ post, (pre ++ gs').length, tr, p⟩ := by
      rw [hsd.1]
      simp [hidx]
    have hdoc : (UndoStack.Undo
        (⟨(pre ++ (gs' ++ [g])) ++ post, (pre ++ (gs' ++ [g])).length, tr, p⟩ :
          StackSt σ) dN).doc
        = (runUndoPass g.reverse dN).1 := by
      rw [hsd.2, hgetD]
    have hsplit : iterUndo (gs' ++ [g]).length
        ((⟨(pre ++ (gs' ++ [g])) ++ post, (pre ++ (gs' ++ [g])).length, tr, p⟩ :
          StackSt σ), dN)
        = iterUndo gs'.length
          ((UndoStack.Undo
            (⟨(pre ++ (gs' ++ [g])) ++ post, (pre ++ (gs' ++ [g])).length, tr, p⟩ :
              StackSt σ) dN).st,
           (UndoStack.Undo
            (⟨(pre ++ (gs' ++ [g])) ++ post, (pre ++ (gs' ++ [g])).length, tr, p⟩ :
              StackSt σ) dN).doc) := by
      have hlen : (gs' ++ [g]).length = gs'.length + 1 := by simp
      rw [hlen]
      rfl
    rw [hsplit, hst, hdoc]
    have hgoal := ih pre ([g] ++ post) d0 ((runUndoPass g.reverse dN).1) tr p hmid
    rw [hassoc]
    exact hgoal

lemma recordAll_from_empty {σ : Type} (gs : List (List (Cmd σ))) :
    ∀ (pre : List (List (Cmd σ))) (p : List (Cmd σ)),
    gs.foldl UndoStack.Record ⟨pre, pre.length, true, p⟩
      = ⟨pre ++ gs, (pre ++ gs).length, true, p⟩ := by
  induction gs with
  | nil => intro pre p; simp
  | cons g gs' ih =>
    intro pre p
    have hstep : UndoStack.Record (σ := σ) ⟨pre, pre.length, true, p⟩ g
        = ⟨pre ++ [g], (pre ++ [g]).length, true, p⟩ := by
      simp [UndoStack.Record]
    rw [List.foldl_cons, hstep, ih (pre ++ [g]) p]
    simp

/-- Claim C4: starting from an empty history with tracking enabled, if the
externally performed edit steps are invertible group by group (UndoChain),
then recording the N groups and calling Undo N times returns the document to
its state before the first recorded step. -/
theorem record_undo_roundtrip {σ : Type} (gs : List (List (Cmd σ)))
    (d0 dN : σ) (p : List (Cmd σ)) (hchain : UndoChain d0 gs dN) :
    (iterUndo gs.length
      (gs.foldl UndoStack.Record ⟨[], 0, true, p⟩, dN)).2 = d0 := by
  have hrec : gs.foldl UndoStack.Record (⟨[], 0, true, p⟩ : StackSt σ)
      = ⟨gs, gs.length, true, p⟩ := by
    simpa using recordAll_from_empty gs [] p
  rw [hrec]
  have h := iterUndo_chain gs [] [] d0 dN true p hchain
  simp only [List.nil_append, List.append_nil] at h
  rw [h]

/-- Claim C4 witness: one recorded group whose single command restores the
document value 0 from 5; Record then Undo indeed returns 0. -/
theorem record_undo_roundtrip_witness :
    (iterUndo 1
      ([[(⟨1, fun _ => (true, 0), fun _ => (true, 5)⟩ : Cmd Nat)]].foldl
        UndoStack.Record ⟨[], 0, true, []⟩, 5)).2 = 0 := by
  have h := record_undo_roundtrip (σ := Nat)
    [[⟨1, fun _ => (true, 0), fun _ => (true, 5)⟩]] 0 5 []
    ⟨5, by simp [runUndoPass], rfl⟩
  simpa using h

/-- The per-widget in-flight tracker payload: the fields mirror the
initial, current and modified members of UndoCustomAction that
UndoValueScope manipulates. -/
structure TrackAction (α : Type) where
  initial : α
  current : α
  modified : Bool

/-- State of the continuous-edit tracking half of UndoStack: the tracking
flag, the working value cache entry for the current widget identity
(modelled from the spec as a lazily created, evicted-on-promotion cache
entry, since the ValueCache container itself is not in the available
sources), the recorded current-frame value edits as (initial, final) pairs,
and the document value driven by the widget. -/
structure TrackSt (α : Type) where
  trackingEnabled : Bool
  cache : Option (TrackAction α)
  pendingPairs : List (α × α)
  doc : α

/-- Source: UndoStack::Track returns a no-op scope when tracking is
disabled; otherwise it fetches (or lazily creates, with initial = current =
the passed value) the cached action for the widget identity, overwrites its
current value with the passed value, and returns a live scope. The first
component tells whether the returned scope is live. -/
def TrackCall {α : Type} (s : TrackSt α) (cur : α) : Bool × TrackSt α :=
  if s.trackingEnabled = false then (false, s)
  else
    let a0 := match s.cache with
      | some a => a
      | none => ⟨cur, cur, false⟩
    (true, { s with cache := some { a0 with current := cur } })

/-- The widget body running inside the scope: it rewrites the current value
through the reference exposed by the scope and reports whether the user
modified the value (UndoValueScope::SetModified ORs the flag in). -/
def widgetEdit {α : Type} (s : TrackSt α) (newVal : α) (setMod : Bool) :
    TrackSt α :=
  match s.cache with
  | none => s
  | some a =>
    { s with cache := some { a with current := newVal, modified := a.modified || setMod } }

/-- Source: the UndoValueScope destructor. A no-op for a dead scope.
Otherwise, when the tracked value changed, it applies the value to the
document (the fake Redo giving live preview); if no widget is active any
more it either promotes the action into the current-frame actions and
evicts it from the cache (user modification), or re-baselines the initial
value in place (external modification). -/
def scopeClose {α : Type} [DecidableEq α] (live : Bool) (anyItemActive : Bool)
    (s : TrackSt α) : TrackSt α :=
  if live = false then s
  else
    match s.cache with
    | none => s
    | some a =>
      if a.initial ≠ a.current then
        let s1 := { s with doc := a.current }
        if anyItemActive = false then
          if a.modified then
            { s1 with
              cache := none
              pendingPairs := s1.pendingPairs ++ [(a.initial, a.current)] }
          else
            { s1 with cache := some { a with initial := a.current } }
        else s1
      else s

/-- One UI frame of a tracked widget: Track is called with the current
document value, the widget body possibly rewrites the value and reports user
modification, and the scope closes with the given input-activity flag. -/
def trackFrame {α : Type} [DecidableEq α] (s : TrackSt α) (newVal : α)
    (setMod : Bool) (anyItemActive : Bool) : TrackSt α :=
  let r := TrackCall s s.doc
  scopeClose r.1 anyItemActive (widgetEdit r.2 newVal setMod)

/-- Folds active-input frames over a list of intermediate values, each
reported as a user modification. -/
def dragFrames {α : Type} [DecidableEq α] (vs : List α) (s : TrackSt α) :
    TrackSt α :=
  vs.foldl (fun s' v => trackFrame s' v true true) s

lemma trackFrame_active_inv {α : Type} [DecidableEq α] (s : TrackSt α)
    (v0 v : α) (x : α) (p : List (α × α))
    (htr : s.trackingEnabled = true) (hp : s.pendingPairs = p)
    (hc : s.cache = some ⟨v0, x, true⟩ ∨ (s.cache = none ∧ s.doc = v0)) :
    (trackFrame s v true true).trackingEnabled = true ∧
    (trackFrame s v true true).pendingPairs = p ∧
    (trackFrame s v true true).cache = some ⟨v0, v, true⟩ := by
  rcases hc with hc | ⟨hc, hd⟩
  · by_cases hne : v0 = v
    · subst hne
      simp [trackFrame, TrackCall, htr, hc, widgetEdit, scopeClose, hp]
    · simp [trackFrame, TrackCall, htr, hc, widgetEdit, scopeClose, hne, hp]
  · by_cases hne : v0 = v
    · subst hne
      simp [trackFrame, TrackCall, htr, hc, hd, widgetEdit, scopeClose, hp]
    · simp [trackFrame, TrackCall, htr, hc, hd, widgetEdit, scopeClose, hne, hp]

lemma dragFrames_inv {α : Type} [DecidableEq α] (vs : List α) :
    ∀ (s : TrackSt α) (v0 : α) (p : List (α × α)),
    s.trackingEnabled = true → s.pendingPairs = p →
    ((∃ x, s.cache = some ⟨v0, x, true⟩) ∨ (s.cache = none ∧ s.doc = v0)) →
    ((dragFrames vs s).trackingEnabled = true ∧
      (dragFrames vs s).pendingPairs = p ∧
      ((∃ x, (dragFrames vs s).cache = some ⟨v0, x, true⟩) ∨
        ((dragFrames vs s).cache = none ∧ (dragFrames vs s).doc = v0))) := by
  induction vs with
  | nil =>
    intro s v0 p htr hp hc
    exact ⟨htr, hp, hc⟩
  | cons v vs' ih =>
    intro s v0 p htr hp hc
    have hstep : (trackFrame s v true true).trackingEnabled = true ∧
        (trackFrame s v true true).pendingPairs = p ∧
        (trackFrame s v true true).cache = some ⟨v0, v, true⟩ := by
      rcases hc with ⟨x, hc⟩ | hc
      · exact trackFrame_active_inv s v0 v x p htr hp (Or.inl hc)
      · exact trackFrame_active_inv s v0 v s.doc p htr hp (Or.inr hc)
    have hnext := ih (trackFrame s v true true) v0 p hstep.1 hstep.2.1
      (Or.inl ⟨v, hstep.2.2⟩)
    simpa [dragFrames] using hnext

lemma trackFrame_commit {α : Type} [DecidableEq α] (s : TrackSt α)
    (v0 vf : α) (p : List (α × α))
    (htr : s.trackingEnabled = true) (hp : s.pendingPairs = p)
    (hc : (∃ x, s.cache = some ⟨v0, x, true⟩) ∨ (s.cache = none ∧ s.doc = v0))
    (hne : vf ≠ v0) :
    trackFrame s vf true false = ⟨true, none, p ++ [(v0, vf)], vf⟩ := by
  have hne' : ¬ v0 = vf := fun h => hne h.symm
  rcases hc with ⟨x, hc⟩ | ⟨hc, hd⟩
  · cases s
    simp only at htr hp hc
    subst htr hp hc
    simp [trackFrame, TrackCall, widgetEdit, scopeClose, hne']
  · cases s
    simp only at htr hp hc hd
    subst htr hp hc hd
    simp [trackFrame, TrackCall, widgetEdit, scopeClose, hne']

/-- Claim C7: a tracked widget whose document value starts at v0, is dragged
through any intermediate values vs while input is active, and settles at a
different value vf when input becomes inactive, promotes exactly one
(initial, final) pair (v0, vf) into the current-frame actions and evicts the
cache entry; and when the settling change is not flagged as a user
modification, the tracker instead re-baselines the cache entry to the
current value and records nothing. -/
theorem continuous_edit_tracking {α : Type} [DecidableEq α] (v0 vf : α)
    (vs : List α) (p : List (α × α)) (hne : vf ≠ v0) :
    (trackFrame (dragFrames vs ⟨true, none, p, v0⟩) vf true false
      = ⟨true, none, p ++ [(v0, vf)], vf⟩) ∧
    (∀ s : TrackSt α, s.trackingEnabled = true → s.pendingPairs = p →
      ((∃ x, s.cache = some ⟨v0, x, false⟩) ∨ (s.cache = none ∧ s.doc = v0)) →
      trackFrame s vf false false = ⟨true, some ⟨vf, vf, false⟩, p, vf⟩) := by
  have hne' : ¬ v0 = vf := fun h => hne h.symm
  constructor
  · have hinv := dragFrames_inv vs (⟨true, none, p, v0⟩ : TrackSt α) v0 p
      rfl rfl (Or.inr ⟨rfl, rfl⟩)
    exact trackFrame_commit _ v0 vf p hinv.1 hinv.2.1 hinv.2.2 hne
  · intro s htr hp hc
    rcases hc with ⟨x, hc⟩ | ⟨hc, hd⟩
    · cases s
      simp only at htr hp hc
      subst htr hp hc
      simp [trackFrame, TrackCall, widgetEdit, scopeClose, hne']
    · cases s
      simp only at htr hp hc hd
      subst htr hp hc hd
      simp [trackFrame, TrackCall, widgetEdit, scopeClose, hne']

/-- Claim C7 witness: dragging from 0 through 1 and 2, settling at 3 when
input goes inactive, records exactly the single pair (0, 3); an unflagged
settling change re-baselines and records nothing. -/
theorem continuous_edit_tracking_witness :
    (trackFrame (dragFrames [1, 2] (⟨true, none, [], 0⟩ : TrackSt Nat)) 3 true false
      = ⟨true, none, [(0, 3)], 3⟩) ∧
    (trackFrame (⟨true, some ⟨0, 5, false⟩, [], 9⟩ : TrackSt Nat) 3 false false
      = ⟨true, some ⟨3, 3, false⟩, [], 3⟩) := by
  refine ⟨(continuous_edit_tracking (α := Nat) 0 3 [1, 2] [] (by decide)).1, ?_⟩
  exact (continuous_edit_tracking (α := Nat) 0 3 [1, 2] [] (by decide)).2
    ⟨true, some ⟨0, 5, false⟩, [], 9⟩ rfl rfl (Or.inl ⟨5, rfl⟩)

/-- Claim C8 counterexample: with the tracking flag false, a single Add call
still changes the pending current-frame actions of the history (the source
Add pushes unconditionally), contradicting the claim that the pending
actions are unchanged by any Add call made while tracking is disabled. -/
theorem add_while_suspended_counterexample :
    (UndoStack.Add (σ := Nat) ⟨[], 0, false, []⟩
        ⟨1, fun x => (true, x), fun x => (true, x)⟩).2.pending
      ≠ (⟨[], 0, false, []⟩ : StackSt Nat).pending := by
  simp [UndoStack.Add]

/-- Claim C8 as amended: while the tracking flag is false, Track returns a
dead (but usable, no-op) scope handle and leaves the tracker state
unchanged, and Record is a no-op; Add, however, returns the action as a
usable handle and still appends it to the pending current-frame actions
regardless of the tracking flag, leaving only the stored groups unchanged. -/
theorem suspended_tracking_behavior {σ α : Type} (s : StackSt σ)
    (t : TrackSt α) (a : Cmd σ) (g : List (Cmd σ)) (cur : α)
    (hs : s.trackingEnabled = false) (ht : t.trackingEnabled = false) :
    (TrackCall t cur = (false, t)) ∧
    (UndoStack.Record s g = s) ∧
    ((UndoStack.Add s a).1 = a ∧
      (UndoStack.Add s a).2.pending = s.pending ++ [a] ∧
      (UndoStack.Add s a).2.stack = s.stack) := by
  refine ⟨?_, ?_, rfl, rfl, rfl⟩
  · simp [TrackCall, ht]
  · simp [UndoStack.Record, hs]

/-- Claim C8 witness: the amended behavior evaluated on concrete suspended
states. -/
theorem suspended_tracking_behavior_witness :
    (TrackCall (⟨false, none, [], 4⟩ : TrackSt Nat) 4
      = (false, ⟨false, none, [], 4⟩)) ∧
    (UndoStack.Record (σ := Nat) ⟨[], 0, false, []⟩ [] = ⟨[], 0, false, []⟩) ∧
    ((UndoStack.Add (σ := Nat) ⟨[], 0, false, []⟩
        ⟨1, fun x => (true, x), fun x => (true, x)⟩).2.pending
      = [⟨1, fun x => (true, x), fun x => (true, x)⟩]) := by
  have h := suspended_tracking_behavior (σ := Nat) (α := Nat)
    ⟨[], 0, false, []⟩ ⟨false, none, [], 4⟩
    ⟨1, fun x => (true, x), fun x => (true, x)⟩ [] 4 rfl rfl
  exact ⟨h.1, h.2.1, by simpa using h.2.2.2.1⟩

/-- Makes a guard value capturing the current tracking flag (the field
mirrors the tracking member of UndoTrackGuard in the source). -/
structure UndoTrackGuard where
  tracking : Bool

/-- Source: the UndoTrackGuard constructor captures the current tracking
state of the stack and then sets the flag to the requested value. -/
def guardAcquire {σ : Type} (s : StackSt σ) (track : Bool) :
    UndoTrackGuard × StackSt σ :=
  (⟨s.trackingEnabled⟩, UndoStack.SetTrackingEnabled s track)

/-- Source: the UndoTrackGuard destructor writes the captured tracking state
back unconditionally. -/
def guardRelease {σ : Type} (g : UndoTrackGuard) (s : StackSt σ) : StackSt σ :=
  UndoStack.SetTrackingEnabled s g.tracking

/-- Claim C9: acquiring the guard sets the tracking flag to the requested
value, and releasing it restores the pre-acquisition flag no matter which
SetTrackingEnabled calls (the list bs) happened while the guard was alive. -/
theorem track_guard_restores {σ : Type} (s : StackSt σ) (track : Bool)
    (bs : List Bool) :
    ((guardAcquire s track).2.trackingEnabled = track) ∧
    ((guardRelease (guardAcquire s track).1
        (bs.foldl UndoStack.SetTrackingEnabled (guardAcquire s track).2)).trackingEnabled
      = s.trackingEnabled) := by
  exact ⟨rfl, rfl⟩

/-- A component living on a scene node: its id, its type hash and its
attributes (attribute values abstracted as naturals). -/
structure SComp where
  cid : Nat
  ctype : Nat
  attrs : List (String × Nat)
deriving DecidableEq, Repr

/-- A scene node: its id, its attributes, its components and its ordered
children. The whole scene is the root node; a serialized node snapshot
(VectorBuffer with the node id as first field) is modelled as the node value
itself. -/
inductive SNode where
  | mk (nid : Nat) (attrs : List (String × Nat)) (comps : List SComp)
      (children : List SNode)

/-- The id of a node (first field of its serialized form). -/
def SNode.nid : SNode → Nat
  | .mk i _ _ _ => i

/-- Updates the value stored under a key of an attribute list (the
set-attribute-by-name facade operation acts on an existing attribute). -/
def setAssoc (l : List (String × Nat)) (k : String) (v : Nat) :
    List (String × Nat) :=
  l.map (fun p => if p.1 = k then (k, v) else p)

/-- Inserts an element at an index, appending when the index is past the
end (AddChild clamps the index to the child count). -/
def insertAt {β : Type} (l : List β) (i : Nat) (a : β) : List β :=
  l.take i ++ [a] ++ l.drop i

mutual
/-- Modelled from the spec: the Mutable Document facade operation
resolve-identifier-to-node (Scene::GetNode), whose implementation is not in
the available sources. Returns the node carrying the id, if any. -/
def getNode : SNode → Nat → Option SNode
  | SNode.mk i a c ch, t =>
    if i = t then some (SNode.mk i a c ch) else getNodeL ch t
/-- Node lookup over a child list. -/
def getNodeL : List SNode → Nat → Option SNode
  | [], _ => none
  | n :: ns, t =>
    match getNode n t with
    | some r => some r
    | none => getNodeL ns t
end

mutual
/-- Modelled from the spec: the facade operation resolving a component id
(Scene::GetComponent). Searches the components of every node. -/
def getComponent : SNode → Nat → Option SComp
  | SNode.mk _ _ c ch, t =>
    match c.find? (fun k => k.cid = t) with
    | some k => some k
    | none => getComponentL ch t
/-- Component lookup over a child list. -/
def getComponentL : List SNode → Nat → Option SComp
  | [], _ => none
  | n :: ns, t =>
    match getComponent n t with
    | some r => some r
    | none => getComponentL ns t
end

mutual
/-- Modelled from the spec: the remove-child facade operation
(Node::RemoveChild); removes the child subtree with the given id from the
children of the node with the parent id. -/
def removeChild : SNode → Nat → Nat → SNode
  | SNode.mk i a c ch, pid, cid =>
    if i = pid then SNode.mk i a c (ch.filter (fun n => n.nid ≠ cid))
    else SNode.mk i a c (removeChildL ch pid cid)
/-- Remove-child mapped over a child list. -/
def removeChildL : List SNode → Nat → Nat → List SNode
  | [], _, _ => []
  | n :: ns, pid, cid => removeChild n pid cid :: removeChildL ns pid cid
end

mutual
/-- Modelled from the spec: the create-child facade operation followed by
loading a serialized snapshot (Node::CreateChild plus Node::Load, or
Node::AddChild at an index); inserts the snapshot under the node with the
parent id, at the given index or at the end. -/
def addChild : SNode → Nat → Option Nat → SNode → SNode
  | SNode.mk i a c ch, pid, idx, child =>
    if i = pid then
      match idx with
      | some k => SNode.mk i a c (insertAt ch k child)
      | none => SNode.mk i a c (ch ++ [child])
    else SNode.mk i a c (addChildL ch pid idx child)
/-- Add-child mapped over a child list. -/
def addChildL : List SNode → Nat → Option Nat → SNode → List SNode
  | [], _, _, _ => []
  | n :: ns, pid, idx, child => addChild n pid idx child :: addChildL ns pid idx child
end

mutual
/-- Modelled from the spec: Node::RemoveComponent via the facade; drops the
component with the given id from the node with the given id. -/
def removeComponent : SNode → Nat → Nat → SNode
  | SNode.mk i a c ch, nid, cid =>
    if i = nid then SNode.mk i a (c.filter (fun k => k.cid ≠ cid)) ch
    else SNode.mk i a c (removeComponentL ch nid cid)
/-- Remove-component mapped over a child list. -/
def removeComponentL : List SNode → Nat → Nat → List SNode
  | [], _, _ => []
  | n :: ns, nid, cid => removeComponent n nid cid :: removeComponentL ns nid cid
end

mutual
/-- Modelled from the spec: Node::CreateComponent plus Component::Load via
the facade; appends the component snapshot to the node with the given id. -/
def addComponent : SNode → Nat → SComp → SNode
  | SNode.mk i a c ch, nid, comp =>
    if i = nid then SNode.mk i a (c ++ [comp]) ch
    else SNode.mk i a c (addComponentL ch nid comp)
/-- Add-component mapped over a child list. -/
def addComponentL : List SNode → Nat → SComp → List SNode
  | [], _, _ => []
  | n :: ns, nid, comp => addComponent n nid comp :: addComponentL ns nid comp
end

mutual
/-- Modelled from the spec: Serializable::SetAttribute plus
ApplyAttributes on a node resolved by id. -/
def setNodeAttr : SNode → Nat → String → Nat → SNode
  | SNode.mk i a c ch, nid, k, v =>
    if i = nid then SNode.mk i (setAssoc a k v) c ch
    else SNode.mk i a c (setNodeAttrL ch nid k v)
/-- Node attribute update mapped over a child list. -/
def setNodeAttrL : List SNode → Nat → String → Nat → List SNode
  | [], _, _, _ => []
  | n :: ns, nid, k, v => setNodeAttr n nid k v :: setNodeAttrL ns nid k v
end

mutual
/-- Modelled from the spec: Serializable::SetAttribute plus
ApplyAttributes on a component resolved by id. -/
def setCompAttr : SNode → Nat → String → Nat → SNode
  | SNode.mk i a c ch, cid, k, v =>
    SNode.mk i a
      (c.map (fun q => if q.cid = cid then { q with attrs := setAssoc q.attrs k v } else q))
      (setCompAttrL ch cid k v)
/-- Component attribute update mapped over a child list. -/
def setCompAttrL : List SNode → Nat → String → Nat → List SNode
  | [], _, _, _ => []
  | n :: ns, cid, k, v => setCompAttr n cid k v :: setCompAttrL ns cid k v
end

mutual
/-- Modelled from the spec: detaching a subtree by node id (the removal half
of Node::SetParent); returns the detached subtree and the remaining tree. -/
def extractNode : SNode → Nat → Option SNode × SNode
  | SNode.mk i a c ch, t =>
    let r := extractL ch t
    (r.1, SNode.mk i a c r.2)
/-- Subtree extraction over a child list. -/
def extractL : List SNode → Nat → Option SNode × List SNode
  | [], _ => (none, [])
  | n :: ns, t =>
    if n.nid = t then (some n, ns)
    else
      let r1 := extractNode n t
      match r1.1 with
      | some f => (some f, r1.2 :: ns)
      | none =>
        let r2 := extractL ns t
        (r2.1, n :: r2.2)
end

/-- Modelled from the spec: the reparent facade operation
(Node::SetParent); detaches the subtree with the node id and appends it to
the children of the new parent. -/
def setParent (root : SNode) (nodeId newParentId : Nat) : SNode :=
  let r := extractNode root nodeId
  match r.1 with
  | none => root
  | some sub => addChild r.2 newParentId none sub

/-- A UI element: serializable attributes, per-instance style defaults and
ordered children. -/
inductive UIElem where
  | mk (attrs : List (String × Nat)) (inst : List (String × Nat))
      (children : List UIElem)

/-- The children of a UI element. -/
def UIElem.children : UIElem → List UIElem
  | .mk _ _ c => c

/-- Source: GetUIElementByPath walks the path from the given element,
stepping into the child at each index and returning null as soon as an
index is not below the child count. -/
def getUIElementByPath : UIElem → List Nat → Option UIElem
  | el, [] => some el
  | el, i :: rest =>
    match el.children[i]? with
    | none => none
    | some c => getUIElementByPath c rest

/-- Rewrites the element reached by a path inside a tree; identity when the
path does not resolve. -/
def updateUIAt : UIElem → List Nat → (UIElem → UIElem) → UIElem
  | el, [], f => f el
  | UIElem.mk a ins cs, i :: rest, f =>
    match cs[i]? with
    | none => UIElem.mk a ins cs
    | some c => UIElem.mk a ins (cs.set i (updateUIAt c rest f))

/-- Sets a serializable attribute of the element at a path
(SetAttribute plus ApplyAttributes on a UI element). -/
def setUIAttrAt (root : UIElem) (p : List Nat) (k : String) (v : Nat) : UIElem :=
  updateUIAt root p (fun el =>
    match el with
    | UIElem.mk a ins cs => UIElem.mk (setAssoc a k v) ins cs)

/-- Sets a per-instance style default of the element at a path
(UIElement::SetInstanceDefault). -/
def setUIInstAt (root : UIElem) (p : List Nat) (k : String) (v : Nat) : UIElem :=
  updateUIAt root p (fun el =>
    match el with
    | UIElem.mk a ins cs => UIElem.mk a (setAssoc ins k v) cs)

/-- Source: UndoCreateNode stores the parent node id and the serialized
node snapshot (whose first field is the created node id), plus a weak
pointer to the scene. The document argument none models an expired scene. -/
structure UndoCreateNode where
  parentID : Nat
  nodeData : SNode

/-- Source: UndoCreateNode::Undo. Returns false when the scene is expired;
otherwise resolves the parent and the node by id and removes the node from
the parent when both resolve, returning true either way. -/
def UndoCreateNode.Undo (a : UndoCreateNode) : Option SNode → Bool × Option SNode
  | none => (false, none)
  | some root =>
    match getNode root a.parentID, getNode root a.nodeData.nid with
    | some _, some _ => (true, some (removeChild root a.parentID a.nodeData.nid))
    | _, _ => (true, some root)

/-- Source: UndoCreateNode::Redo. Returns false when the scene is expired;
otherwise recreates the node from the snapshot under the parent when the
parent resolves, returning true either way. -/
def UndoCreateNode.Redo (a : UndoCreateNode) : Option SNode → Bool × Option SNode
  | none => (false, none)
  | some root =>
    match getNode root a.parentID with
    | some _ => (true, some (addChild root a.parentID none a.nodeData))
    | none => (true, some root)

/-- Source: UndoDeleteNode stores the parent id, the index of the node
among the parent children and the serialized node snapshot. -/
structure UndoDeleteNode where
  parentID : Nat
  parentIndex : Nat
  nodeData : SNode

/-- Source: UndoDeleteNode::Undo. Returns false when the scene is expired;
otherwise re-adds the snapshot at the stored index when the parent
resolves, returning true either way. -/
def UndoDeleteNode.Undo (a : UndoDeleteNode) : Option SNode → Bool × Option SNode
  | none => (false, none)
  | some root =>
    match getNode root a.parentID with
    | some _ => (true, some (addChild root a.parentID (some a.parentIndex) a.nodeData))
    | none => (true, some root)

/-- Source: UndoDeleteNode::Redo. Returns false when the scene is expired;
otherwise removes the node from the parent when both resolve, returning
true either way. -/
def UndoDeleteNode.Redo (a : UndoDeleteNode) : Option SNode → Bool × Option SNode
  | none => (false, none)
  | some root =>
    match getNode root a.parentID, getNode root a.nodeData.nid with
    | some _, some _ => (true, some (removeChild root a.parentID a.nodeData.nid))
    | _, _ => (true, some root)

/-- Source: UndoReparentNode stores either one (node, old parent, new
parent) id triple, or a flat list of (node, old parent) id pairs plus the
shared new parent id, selected by the multiple flag. -/
structure UndoReparentNode where
  multiple : Bool
  nodeID : Nat
  oldParentID : Nat
  newParentID : Nat
  nodeList : List (Nat × Nat)

/-- Source: UndoReparentNode::Undo. Returns false when the scene is
expired. In batch mode every stored (node, old parent) pair is resolved
against the current scene and reparented when both resolve, skipping the
others; in single mode the node moves back to the old parent when both
resolve. Returns true in all these cases. -/
def UndoReparentNode.Undo (a : UndoReparentNode) : Option SNode → Bool × Option SNode
  | none => (false, none)
  | some root =>
    if a.multiple then
      (true, some (a.nodeList.foldl (fun r pr =>
        match getNode r pr.2, getNode r pr.1 with
        | some _, some _ => setParent r pr.1 pr.2
        | _, _ => r) root))
    else
      match getNode root a.oldParentID, getNode root a.nodeID with
      | some _, some _ => (true, some (setParent root a.nodeID a.oldParentID))
      | _, _ => (true, some root)

/-- Source: UndoReparentNode::Redo. Returns false when the scene is
expired. In batch mode the call returns false without changes when the new
parent does not resolve, and otherwise reparents every resolvable stored
node under it; in single mode the node moves to the new parent when both
resolve. -/
def UndoReparentNode.Redo (a : UndoReparentNode) : Option SNode → Bool × Option SNode
  | none => (false, none)
  | some root =>
    if a.multiple then
      match getNode root a.newParentID with
      | none => (false, some root)
      | some _ =>
        (true, some (a.nodeList.foldl (fun r pr =>
          match getNode r pr.1 with
          | some _ => setParent r pr.1 a.newParentID
          | none => r) root))
    else
      match getNode root a.newParentID, getNode root a.nodeID with
      | some _, some _ => (true, some (setParent root a.nodeID a.newParentID))
      | _, _ => (true, some root)

/-- Source: UndoCreateComponent stores the node id and the serialized
component snapshot (type hash then component id). -/
structure UndoCreateComponent where
  nodeID : Nat
  componentData : SComp

/-- Source: UndoCreateComponent::Undo. Returns false when the scene is
expired; otherwise removes the component from the node when both the node
and the component resolve, returning true either way. -/
def UndoCreateComponent.Undo (a : UndoCreateComponent) :
    Option SNode → Bool × Option SNode
  | none => (false, none)
  | some root =>
    match getNode root a.nodeID, getComponent root a.componentData.cid with
    | some _, some _ => (true, some (removeComponent root a.nodeID a.componentData.cid))
    | _, _ => (true, some root)

/-- Source: UndoCreateComponent::Redo. Returns false when the scene is
expired; otherwise recreates the component from the snapshot on the node
when the node resolves, returning true either way. -/
def UndoCreateComponent.Redo (a : UndoCreateComponent) :
    Option SNode → Bool × Option SNode
  | none => (false, none)
  | some root =>
    match getNode root a.nodeID with
    | some _ => (true, some (addComponent root a.nodeID a.componentData))
    | none => (true, some root)

/-- Source: UndoDeleteComponent stores the node id and the serialized
component snapshot. -/
structure UndoDeleteComponent where
  nodeID : Nat
  componentData : SComp

/-- Source: UndoDeleteComponent::Undo. Returns false when the scene is
expired; otherwise recreates the component on the node when the node
resolves, returning true either way. -/
def UndoDeleteComponent.Undo (a : UndoDeleteComponent) :
    Option SNode → Bool × Option SNode
  | none => (false, none)
  | some root =>
    match getNode root a.nodeID with
    | some _ => (true, some (addComponent root a.nodeID a.componentData))
    | none => (true, some root)

/-- Source: UndoDeleteComponent::Redo. Returns false when the scene is
expired; otherwise removes the component from the node when both resolve,
returning true either way. -/
def UndoDeleteComponent.Redo (a : UndoDeleteComponent) :
    Option SNode → Bool × Option SNode
  | none => (false, none)
  | some root =>
    match getNode root a.nodeID, getComponent root a.componentData.cid with
    | some _, some _ => (true, some (removeComponent root a.nodeID a.componentData.cid))
    | _, _ => (true, some root)

/-- Source: the targeting mode of UndoEditAttribute, selected once at
construction time by dynamic type: a scene node id, a scene component id, a
UI element path from the root, or a plain weak reference for other
serializables. -/
inductive AttrTargetK where
  | tnode (nid : Nat)
  | tcomp (cid : Nat)
  | tui (path : List Nat)
  | tother

/-- Source: UndoEditAttribute stores the targeting mode, the attribute
name, and the old and new values. -/
structure UndoEditAttribute where
  target : AttrTargetK
  attrName : String
  undoValue : Nat
  redoValue : Nat

/-- The documents UndoEditAttribute can touch: the scene (weak, none when
expired), the UI root (weak) and the plain weak target used for other
serializables, modelled by its attribute list. -/
structure EditAttrDoc where
  scene : Option SNode
  uiRoot : Option UIElem
  other : Option (List (String × Nat))

/-- Source: UndoEditAttribute::IsExpired checks the weak reference matching
the targeting mode. -/
def UndoEditAttribute.IsExpired (a : UndoEditAttribute) (d : EditAttrDoc) : Bool :=
  match a.target with
  | .tnode _ => d.scene.isNone
  | .tcomp _ => d.scene.isNone
  | .tui _ => d.uiRoot.isNone
  | .tother => d.other.isNone

/-- Source: the shared body of UndoEditAttribute::Undo and Redo: returns
false when expired; otherwise resolves the target (GetTarget) and, when it
resolves, sets the attribute and applies attributes; returns true either
way. -/
def UndoEditAttribute.applyValue (a : UndoEditAttribute) (d : EditAttrDoc)
    (v : Nat) : Bool × EditAttrDoc :=
  if a.IsExpired d then (false, d)
  else
    match a.target with
    | .tnode i =>
      match d.scene with
      | none => (false, d)
      | some root =>
        match getNode root i with
        | some _ => (true, { d with scene := some (setNodeAttr root i a.attrName v) })
        | none => (true, d)
    | .tcomp i =>
      match d.scene with
      | none => (false, d)
      | some root =>
        match getComponent root i with
        | some _ => (true, { d with scene := some (setCompAttr root i a.attrName v) })
        | none => (true, d)
    | .tui p =>
      match d.uiRoot with
      | none => (false, d)
      | some root =>
        match getUIElementByPath root p with
        | some _ => (true, { d with uiRoot := some (setUIAttrAt root p a.attrName v) })
        | none => (true, d)
    | .tother =>
      match d.other with
      | none => (false, d)
      | some o => (true, { d with other := some (setAssoc o a.attrName v) })

/-- Source: UndoEditAttribute::Undo sets the old value. -/
def UndoEditAttribute.Undo (a : UndoEditAttribute) (d : EditAttrDoc) :
    Bool × EditAttrDoc :=
  a.applyValue d a.undoValue

/-- Source: UndoEditAttribute::Redo sets the new value. -/
def UndoEditAttribute.Redo (a : UndoEditAttribute) (d : EditAttrDoc) :
    Bool × EditAttrDoc :=
  a.applyValue d a.redoValue

/-- Source: UndoEditUIStyle stores the element path, the style attribute
name, the old and new instance-default values and full snapshots of the old
and new style sheet contents. -/
structure UndoEditUIStyle where
  elementId : List Nat
  attributeName : String
  oldValue : Nat
  newValue : Nat
  oldStyle : List (String × Nat)
  newStyle : List (String × Nat)

/-- The document UndoEditUIStyle touches: the UI root (weak) and the
shared default style sheet, modelled as its entry list. -/
structure UIStyleDoc where
  root : Option UIElem
  style : List (String × Nat)

/-- Source: UndoEditUIStyle::Undo. Returns false when the root is expired.
Otherwise it resolves the element path and dereferences the result without
a null check: an unresolved path is modelled as none (undefined behavior in
the source); on success it sets the instance default to the old value and
replaces the style sheet contents with the old snapshot. -/
def UndoEditUIStyle.Undo (a : UndoEditUIStyle) (d : UIStyleDoc) :
    Option (Bool × UIStyleDoc) :=
  match d.root with
  | none => some (false, d)
  | some r =>
    match getUIElementByPath r a.elementId with
    | none => none
    | some _ =>
      some (true,
        ⟨some (setUIInstAt r a.elementId a.attributeName a.oldValue), a.oldStyle⟩)

/-- Source: UndoEditUIStyle::Redo. Symmetric to Undo with the new value and
the new style snapshot, with the same unchecked dereference. -/
def UndoEditUIStyle.Redo (a : UndoEditUIStyle) (d : UIStyleDoc) :
    Option (Bool × UIStyleDoc) :=
  match d.root with
  | none => some (false, d)
  | some r =>
    match getUIElementByPath r a.elementId with
    | none => none
    | some _ =>
      some (true,
        ⟨some (setUIInstAt r a.elementId a.attributeName a.newValue), a.newStyle⟩)

/-- Claim C1 counterexample: a live scene consisting of a single root node
with id 0, and an UndoCreateNode command whose stored parent id 5 does not
resolve: the stored identifier fails to resolve at call time, yet Undo
returns true (not false), merely leaving the document unchanged. -/
theorem resolution_failure_counterexample :
    getNode (SNode.mk 0 [] [] []) 5 = none ∧
    UndoCreateNode.Undo ⟨5, SNode.mk 7 [] [] []⟩ (some (SNode.mk 0 [] [] []))
      = (true, some (SNode.mk 0 [] [] [])) := by
  exact ⟨rfl, rfl⟩

lemma foldl_reparent_skip (l : List (Nat × Nat)) (root : SNode)
    (h : ∀ pr ∈ l, getNode root pr.2 = none ∨ getNode root pr.1 = none) :
    l.foldl (fun r pr =>
      match getNode r pr.2, getNode r pr.1 with
      | some _, some _ => setParent r pr.1 pr.2
      | _, _ => r) root = root := by
  induction l with
  | nil => rfl
  | cons pr rest ih =>
    have hpr := h pr (List.mem_cons_self pr rest)
    have hstep : (match getNode root pr.2, getNode root pr.1 with
        | some _, some _ => setParent root pr.1 pr.2
        | _, _ => root) = root := by
      rcases hpr with h1 | h1
      · simp [h1]
      · cases hx : getNode root pr.2 <;> simp [h1, hx]
    rw [List.foldl_cons, hstep]
    exact ih (fun q hq => h q (List.mem_cons_of_mem pr hq))

/-- Claim C1 as amended: when the stored weak document reference (scene or
UI root) is expired at call time, every variant returns false and leaves
the document unchanged; when the document is alive but a stored
identifier or path fails to resolve, the variants leave the document
unchanged but return true, with two deviations: batch reparent Redo
returns false (unchanged document) when the new parent does not resolve,
and edit-style-sheet-value dereferences the unresolved element (modelled
as the undefined result none) instead of returning. -/
theorem variant_resolution_behavior :
    (∀ a : UndoCreateNode, a.Undo none = (false, none) ∧ a.Redo none = (false, none)) ∧
    (∀ a : UndoDeleteNode, a.Undo none = (false, none) ∧ a.Redo none = (false, none)) ∧
    (∀ a : UndoReparentNode, a.Undo none = (false, none) ∧ a.Redo none = (false, none)) ∧
    (∀ a : UndoCreateComponent, a.Undo none = (false, none) ∧ a.Redo none = (false, none)) ∧
    (∀ a : UndoDeleteComponent, a.Undo none = (false, none) ∧ a.Redo none = (false, none)) ∧
    (∀ (a : UndoEditAttribute) (d : EditAttrDoc), a.IsExpired d = true →
      a.Undo d = (false, d) ∧ a.Redo d = (false, d)) ∧
    (∀ (a : UndoEditUIStyle) (st : List (String × Nat)),
      a.Undo ⟨none, st⟩ = some (false, ⟨none, st⟩) ∧
      a.Redo ⟨none, st⟩ = some (false, ⟨none, st⟩)) ∧
    (∀ (a : UndoCreateNode) (root : SNode),
      getNode root a.parentID = none ∨ getNode root a.nodeData.nid = none →
      a.Undo (some root) = (true, some root)) ∧
    (∀ (a : UndoCreateNode) (root : SNode),
      getNode root a.parentID = none → a.Redo (some root) = (true, some root)) ∧
    (∀ (a : UndoDeleteNode) (root : SNode),
      getNode root a.parentID = none → a.Undo (some root) = (true, some root)) ∧
    (∀ (a : UndoDeleteNode) (root : SNode),
      getNode root a.parentID = none ∨ getNode root a.nodeData.nid = none →
      a.Redo (some root) = (true, some root)) ∧
    (∀ (a : UndoReparentNode) (root : SNode), a.multiple = false →
      getNode root a.oldParentID = none ∨ getNode root a.nodeID = none →
      a.Undo (some root) = (true, some root)) ∧
    (∀ (a : UndoReparentNode) (root : SNode), a.multiple = true →
      (∀ pr ∈ a.nodeList, getNode root pr.2 = none ∨ getNode root pr.1 = none) →
      a.Undo (some root) = (true, some root)) ∧
    (∀ (a : UndoReparentNode) (root : SNode), a.multiple = false →
      getNode root a.newParentID = none ∨ getNode root a.nodeID = none →
      a.Redo (some root) = (true, some root)) ∧
    (∀ (a : UndoReparentNode) (root : SNode), a.multiple = true →
      getNode root a.newParentID = none →
      a.Redo (some root) = (false, some root)) ∧
    (∀ (a : UndoCreateComponent) (root : SNode),
      getNode root a.nodeID = none ∨ getComponent root a.componentData.cid = none →
      a.Undo (some root) = (true, some root)) ∧
    (∀ (a : UndoCreateComponent) (root : SNode),
      getNode root a.nodeID = none → a.Redo (some root) = (true, some root)) ∧
    (∀ (a : UndoDeleteComponent) (root : SNode),
      getNode root a.nodeID = none → a.Undo (some root) = (true, some root)) ∧
    (∀ (a : UndoDeleteComponent) (root : SNode),
      getNode root a.nodeID = none ∨ getComponent root a.componentData.cid = none →
      a.Redo (some root) = (true, some root)) ∧
    (∀ (a : UndoEditAttribute) (d : EditAttrDoc) (i : Nat) (root : SNode),
      a.target = AttrTargetK.tnode i → d.scene = some root → getNode root i = none →
      a.Undo d = (true, d) ∧ a.Redo d = (true, d)) ∧
    (∀ (a : UndoEditAttribute) (d : EditAttrDoc) (i : Nat) (root : SNode),
      a.target = AttrTargetK.tcomp i → d.scene = some root →
      getComponent root i = none →
      a.Undo d = (true, d) ∧ a.Redo d = (true, d)) ∧
    (∀ (a : UndoEditAttribute) (d : EditAttrDoc) (p : List Nat) (root : UIElem),
      a.target = AttrTargetK.tui p → d.uiRoot = some root →
      getUIElementByPath root p = none →
      a.Undo d = (true, d) ∧ a.Redo d = (true, d)) ∧
    (∀ (a : UndoEditUIStyle) (root : UIElem) (st : List (String × Nat)),
      getUIElementByPath root a.elementId = none →
      a.Undo ⟨some root, st⟩ = none ∧ a.Redo ⟨some root, st⟩ = none) := by
  refine ⟨fun a => ⟨rfl, rfl⟩, fun a => ⟨rfl, rfl⟩, fun a => ⟨rfl, rfl⟩,
    fun a => ⟨rfl, rfl⟩, fun a => ⟨rfl, rfl⟩, ?_, fun a st => ⟨rfl, rfl⟩,
    ?_, ?_, ?_, ?_, ?_, ?_, ?_, ?_, ?_, ?_, ?_, ?_, ?_, ?_, ?_, ?_⟩
  · intro a d h
    constructor <;>
      simp [UndoEditAttribute.Undo, UndoEditAttribute.Redo,
        UndoEditAttribute.applyValue, h]
  · intro a root h
    rcases h with h | h
    · simp [UndoCreateNode.Undo, h]
    · cases hx : getNode root a.parentID <;> simp [UndoCreateNode.Undo, h, hx]
  · intro a root h
    simp [UndoCreateNode.Redo, h]
  · intro a root h
    simp [UndoDeleteNode.Undo, h]
  · intro a root h
    rcases h with h | h
    · simp [UndoDeleteNode.Redo, h]
    · cases hx : getNode root a.parentID <;> simp [UndoDeleteNode.Redo, h, hx]
  · intro a root hm h
    rcases h with h | h
    · simp [UndoReparentNode.Undo, hm, h]
    · cases hx : getNode root a.oldParentID <;> simp [UndoReparentNode.Undo, hm, h, hx]
  · intro a root hm h
    simp only [UndoReparentNode.Undo, hm, if_true]
    rw [foldl_reparent_skip a.nodeList root h]
  · intro a root hm h
    rcases h with h | h
    · simp [UndoReparentNode.Redo, hm, h]
    · cases hx : getNode root a.newParentID <;> simp [UndoReparentNode.Redo, hm, h, hx]
  · intro a root hm h
    simp [UndoReparentNode.Redo, hm, h]
  · intro a root h
    rcases h with h | h
    · simp [UndoCreateComponent.Undo, h]
    · cases hx : getNode root a.nodeID <;> simp [UndoCreateComponent.Undo, h, hx]
  · intro a root h
    simp [UndoCreateComponent.Redo, h]
  · intro a root h
    simp [UndoDeleteComponent.Undo, h]
  · intro a root h
    rcases h with h | h
    · simp [UndoDeleteComponent.Redo, h]
    · cases hx : getNode root a.nodeID <;> simp [UndoDeleteComponent.Redo, h, hx]
  · intro a d i root ht hs h
    constructor <;>
      simp [UndoEditAttribute.Undo, UndoEditAttribute.Redo,
        UndoEditAttribute.applyValue, UndoEditAttribute.IsExpired, ht, hs, h]
  · intro a d i root ht hs h
    constructor <;>
      simp [UndoEditAttribute.Undo, UndoEditAttribute.Redo,
        UndoEditAttribute.applyValue, UndoEditAttribute.IsExpired, ht, hs, h]
  · intro a d p root ht hs h
    constructor <;>
      simp [UndoEditAttribute.Undo, UndoEditAttribute.Redo,
        UndoEditAttribute.applyValue, UndoEditAttribute.IsExpired, ht, hs, h]
  · intro a root st h
    constructor <;> simp [UndoEditUIStyle.Undo, UndoEditUIStyle.Redo, h]

/-- Claim C1 witness: the amended behavior evaluated against a concrete
one-node scene (root id 0, so id 5 never resolves) and a concrete childless
UI root (so path [2] never resolves), for every hypothesis-bearing case. -/
theorem variant_resolution_behavior_witness :
    (UndoEditAttribute.Undo ⟨AttrTargetK.tnode 5, "p", 1, 2⟩ ⟨none, none, none⟩
      = (false, ⟨none, none, none⟩)) ∧
    (UndoCreateNode.Undo ⟨5, SNode.mk 7 [] [] []⟩ (some (SNode.mk 0 [] [] []))
      = (true, some (SNode.mk 0 [] [] []))) ∧
    (UndoCreateNode.Redo ⟨5, SNode.mk 7 [] [] []⟩ (some (SNode.mk 0 [] [] []))
      = (true, some (SNode.mk 0 [] [] []))) ∧
    (UndoDeleteNode.Undo ⟨5, 0, SNode.mk 7 [] [] []⟩ (some (SNode.mk 0 [] [] []))
      = (true, some (SNode.mk 0 [] [] []))) ∧
    (UndoDeleteNode.Redo ⟨5, 0, SNode.mk 7 [] [] []⟩ (some (SNode.mk 0 [] [] []))
      = (true, some (SNode.mk 0 [] [] []))) ∧
    (UndoReparentNode.Undo ⟨false, 7, 5, 6, []⟩ (some (SNode.mk 0 [] [] []))
      = (true, some (SNode.mk 0 [] [] []))) ∧
    (UndoReparentNode.Undo ⟨true, 0, 0, 0, [(7, 5)]⟩ (some (SNode.mk 0 [] [] []))
      = (true, some (SNode.mk 0 [] [] []))) ∧
    (UndoReparentNode.Redo ⟨false, 7, 5, 6, []⟩ (some (SNode.mk 0 [] [] []))
      = (true, some (SNode.mk 0 [] [] []))) ∧
    (UndoReparentNode.Redo ⟨true, 0, 0, 6, [(7, 5)]⟩ (some (SNode.mk 0 [] [] []))
      = (false, some (SNode.mk 0 [] [] []))) ∧
    (UndoCreateComponent.Undo ⟨5, ⟨9, 1, []⟩⟩ (some (SNode.mk 0 [] [] []))
      = (true, some (SNode.mk 0 [] [] []))) ∧
    (UndoCreateComponent.Redo ⟨5, ⟨9, 1, []⟩⟩ (some (SNode.mk 0 [] [] []))
      = (true, some (SNode.mk 0 [] [] []))) ∧
    (UndoDeleteComponent.Undo ⟨5, ⟨9, 1, []⟩⟩ (some (SNode.mk 0 [] [] []))
      = (true, some (SNode.mk 0 [] [] []))) ∧
    (UndoDeleteComponent.Redo ⟨5, ⟨9, 1, []⟩⟩ (some (SNode.mk 0 [] [] []))
      = (true, some (SNode.mk 0 [] [] []))) ∧
    (UndoEditAttribute.Undo ⟨AttrTargetK.tnode 5, "p", 1, 2⟩
        ⟨some (SNode.mk 0 [] [] []), none, none⟩
      = (true, ⟨some (SNode.mk 0 [] [] []), none, none⟩)) ∧
    (UndoEditAttribute.Undo ⟨AttrTargetK.tcomp 5, "p", 1, 2⟩
        ⟨some (SNode.mk 0 [] [] []), none, none⟩
      = (true, ⟨some (SNode.mk 0 [] [] []), none, none⟩)) ∧
    (UndoEditAttribute.Undo ⟨AttrTargetK.tui [2], "p", 1, 2⟩
        ⟨none, some (UIElem.mk [] [] []), none⟩
      = (true, ⟨none, some (UIElem.mk [] [] []), none⟩)) ∧
    (UndoEditUIStyle.Undo ⟨[2], "p", 1, 2, [], []⟩ ⟨some (UIElem.mk [] [] []), []⟩
      = none) := by
  obtain ⟨e1, e2, e3, e4, e5, e6, e7, r1, r2, r3, r4, r5, r6, r7, r8, r9, r10,
    r11, r12, r13, r14, r15, r16⟩ := variant_resolution_behavior
  refine ⟨(e6 ⟨AttrTargetK.tnode 5, "p", 1, 2⟩ ⟨none, none, none⟩ rfl).1,
    r1 ⟨5, SNode.mk 7 [] [] []⟩ (SNode.mk 0 [] [] []) (Or.inl rfl),
    r2 ⟨5, SNode.mk 7 [] [] []⟩ (SNode.mk 0 [] [] []) rfl,
    r3 ⟨5, 0, SNode.mk 7 [] [] []⟩ (SNode.mk 0 [] [] []) rfl,
    r4 ⟨5, 0, SNode.mk 7 [] [] []⟩ (SNode.mk 0 [] [] []) (Or.inl rfl),
    r5 ⟨false, 7, 5, 6, []⟩ (SNode.mk 0 [] [] []) rfl (Or.inl rfl),
    r6 ⟨true, 0, 0, 0, [(7, 5)]⟩ (SNode.mk 0 [] [] []) rfl ?_,
    r7 ⟨false, 7, 5, 6, []⟩ (SNode.mk 0 [] [] []) rfl (Or.inl rfl),
    r8 ⟨true, 0, 0, 6, [(7, 5)]⟩ (SNode.mk 0 [] [] []) rfl rfl,
    r9 ⟨5, ⟨9, 1, []⟩⟩ (SNode.mk 0 [] [] []) (Or.inl rfl),
    r10 ⟨5, ⟨9, 1, []⟩⟩ (SNode.mk 0 [] [] []) rfl,
    r11 ⟨5, ⟨9, 1, []⟩⟩ (SNode.mk 0 [] [] []) rfl,
    r12 ⟨5, ⟨9, 1, []⟩⟩ (SNode.mk 0 [] [] []) (Or.inl rfl),
    (r13 ⟨AttrTargetK.tnode 5, "p", 1, 2⟩ ⟨some (SNode.mk 0 [] [] []), none, none⟩
      5 (SNode.mk 0 [] [] []) rfl rfl rfl).1,
    (r14 ⟨AttrTargetK.tcomp 5, "p", 1, 2⟩ ⟨some (SNode.mk 0 [] [] []), none, none⟩
      5 (SNode.mk 0 [] [] []) rfl rfl rfl).1,
    (r15 ⟨AttrTargetK.tui [2], "p", 1, 2⟩ ⟨none, some (UIElem.mk [] [] []), none⟩
      [2] (UIElem.mk [] [] []) rfl rfl rfl).1,
    (r16 ⟨[2], "p", 1, 2, [], []⟩ (UIElem.mk [] [] []) [] rfl).1⟩
  intro pr hpr
  have : pr = (7, 5) := by simpa using hpr
  subst this
  exact Or.inl rfl

/-- Walks the ancestor frames of an element upward, pushing at each level
the index of the walked element within its parent (the value FindChild
returns in the source loop). -/
def pathUpCollect : List (UIElem × Nat) → List Nat
  | [] => []
  | (_, i) :: rest => i :: pathUpCollect rest

/-- Source: GetUIElementPath walks from the element to the root collecting
parent->FindChild(el) at each level and reverses the collected list. An
element in context is represented by its ancestor frames, innermost first:
each frame holds the parent element and the index of the walked element
among that parent's children. -/
def getUIElementPath (anc : List (UIElem × Nat)) : List Nat :=
  (pathUpCollect anc).reverse

/-- The root of the tree an element in context lives in. -/
def rootOf : UIElem → List (UIElem × Nat) → UIElem
  | t, [] => t
  | _, (p, _) :: rest => rootOf p rest

/-- Well-formedness of ancestor frames: the stored index locates the walked
element among the parent's children, which is exactly what the
pointer-identity FindChild of the source returns. -/
def wfAnc : UIElem → List (UIElem × Nat) → Prop
  | _, [] => True
  | t, (p, i) :: rest => p.children[i]? = some t ∧ wfAnc p rest

lemma getUIElementByPath_append (q : List Nat) :
    ∀ (r : UIElem) (i : Nat),
    getUIElementByPath r (q ++ [i])
      = (getUIElementByPath r q).bind (fun e => e.children[i]?) := by
  induction q with
  | nil =>
    intro r i
    simp only [List.nil_append, getUIElementByPath, Option.bind]
    cases hx : r.children[i]? <;> simp [getUIElementByPath, hx]
  | cons j q' ih =>
    intro r i
    simp only [List.cons_append, getUIElementByPath]
    cases hx : r.children[j]? <;> simp [hx, ih]

/-- Claim C10: resolving the captured path of an element in a well-formed
tree context from that tree root returns the element itself (capture and
resolve round-trip), and resolution returns null as soon as any path index
reaches or exceeds the child count at its level (the total Lean function
witnesses that no out-of-bounds access occurs). -/
theorem ui_path_resolution :
    (∀ (anc : List (UIElem × Nat)) (t : UIElem), wfAnc t anc →
      getUIElementByPath (rootOf t anc) (getUIElementPath anc) = some t) ∧
    (∀ (p1 : List Nat) (r e : UIElem) (i : Nat) (p2 : List Nat),
      getUIElementByPath r p1 = some e → e.children.length ≤ i →
      getUIElementByPath r (p1 ++ i :: p2) = none) := by
  constructor
  · intro anc
    induction anc with
    | nil =>
      intro t _
      rfl
    | cons fr rest ih =>
      intro t hwf
      obtain ⟨p, i⟩ := fr
      obtain ⟨hidx, hrest⟩ := hwf
      have hpath : getUIElementPath ((p, i) :: rest)
          = getUIElementPath rest ++ [i] := by
        simp [getUIElementPath, pathUpCollect]
      have hroot : rootOf t ((p, i) :: rest) = rootOf p rest := rfl
      rw [hpath, hroot, getUIElementByPath_append, ih p hrest]
      simpa using hidx
  · intro p1
    induction p1 with
    | nil =>
      intro r e i p2 hr hlen
      have : r = e := by simpa [getUIElementByPath] using hr
      subst this
      have hnone : r.children[i]? = none := by
        exact List.getElem?_eq_none hlen
      simp [getUIElementByPath, hnone]
    | cons j p1' ih =>
      intro r e i p2 hr hlen
      cases hx : r.children[j]? with
      | none =>
        simp [getUIElementByPath, hx] at hr
      | some c =>
        simp only [getUIElementByPath, hx] at hr
        simp only [List.cons_append, getUIElementByPath, hx]
        exact ih c e i p2 hr hlen

/-- Claim C10 witness: in a concrete tree (a root with two children, the
second of which has one child), the path captured for the grandchild, namely
[1, 0], resolves back to the grandchild, and an out-of-range index 2 at the
root level resolves to null. -/
theorem ui_path_resolution_witness :
    (getUIElementByPath
        (UIElem.mk [] [] [UIElem.mk [] [] [],
          UIElem.mk [] [] [UIElem.mk [("x", 1)] [] []]])
        (getUIElementPath
          [(UIElem.mk [] [] [UIElem.mk [("x", 1)] [] []], 0),
           (UIElem.mk [] [] [UIElem.mk [] [] [],
             UIElem.mk [] [] [UIElem.mk [("x", 1)] [] []]], 1)])
      = some (UIElem.mk [("x", 1)] [] [])) ∧
    (getUIElementByPath
        (UIElem.mk [] [] [UIElem.mk [] [] [],
          UIElem.mk [] [] [UIElem.mk [("x", 1)] [] []]])
        ([] ++ 2 :: [])
      = none) := by
  constructor
  · exact ui_path_resolution.1
      [(UIElem.mk [] [] [UIElem.mk [("x", 1)] [] []], 0),
       (UIElem.mk [] [] [UIElem.mk [] [] [],
         UIElem.mk [] [] [UIElem.mk [("x", 1)] [] []]], 1)]
      (UIElem.mk [("x", 1)] [] []) ⟨rfl, rfl, trivial⟩
  · exact ui_path_resolution.2 []
      (UIElem.mk [] [] [UIElem.mk [] [] [],
        UIElem.mk [] [] [UIElem.mk [("x", 1)] [] []]])
      (UIElem.mk [] [] [UIElem.mk [] [] [],
        UIElem.mk [] [] [UIElem.mk [("x", 1)] [] []]])
      2 [] rfl (by simp [UIElem.children])

end Rbfx
